import Mathlib

/-!
# regexbench: statistics module, affinity planner, option validation, report tree

A shallow embedding of `src/statistic.cpp` and of the affinity, option and
report code of `src/regexbench.cpp`, followed by the properties proved of it.

Conventions of the embedding.

* `size_t` is 64 bits wide: a counter is a natural number below `SIZE_MOD`,
  and `+=` / `-` on counters are `wadd` / `wsub`, which reduce modulo
  `SIZE_MOD` exactly as unsigned arithmetic does.
* `int` and `unsigned` are 32 bits wide: the conversion of an `unsigned` to
  `int` is `toInt`, and an `int` sum that leaves the range wraps (`wrapInt`).
* A function that takes a `std::vector<MatchResult>&` and mutates it returns
  the new vector next to its result.
* `regexbench.h` is not part of the sources at hand; the two record types it
  declares are reconstructed from their uses in `statistic.cpp` and from the
  data model of the specification.
-/

namespace regexbench

/-! ## Machine arithmetic on `size_t` -/

/-- Number of values of a `size_t` (64-bit). -/
def SIZE_MOD : Nat := 2 ^ 64

/-- The `size_t` operation `a + b`. -/
def wadd (a b : Nat) : Nat := (a + b) % SIZE_MOD

/-- The `size_t` operation `a - b`: `a - b` when `b ≤ a`, and
`a + 2^64 - b` when the subtraction wraps. -/
def wsub (a b : Nat) : Nat := (a + SIZE_MOD - b % SIZE_MOD) % SIZE_MOD

/-! ## Data model (`regexbench.h`) -/

/-- Modelled from the spec: `struct ResultInfo` of the absent `regexbench.h`,
the four `size_t` counters {matches, matched_packets, packets, bytes} under the
field names `statistic.cpp` uses. -/
structure ResultInfo where
  nmatches : Nat
  nmatched_pkts : Nat
  npkts : Nat
  nbytes : Nat
deriving DecidableEq, Repr

/-- Modelled from the spec: a default-constructed `ResultInfo` (the local
`struct ResultInfo stat;` of `realtime` and `total`) has every counter at
zero; the member initialisers live in the absent `regexbench.h`. -/
def ResultInfo.zero : ResultInfo := ⟨0, 0, 0, 0⟩

/-- A `struct timeval`: seconds and microseconds. -/
structure Timeval where
  tv_sec : Int
  tv_usec : Int
deriving DecidableEq, Repr

/-- Modelled from the spec: `struct MatchResult` of the absent `regexbench.h`,
the per-worker record holding the cumulative counters `cur`, the last reported
snapshot `old`, and the user and system CPU time of the pass. -/
structure MatchResult where
  cur : ResultInfo
  old : ResultInfo
  udiff : Timeval
  sdiff : Timeval
deriving DecidableEq, Repr

/-- Every counter of the record is a `size_t` value. -/
def ResultInfo.WF (r : ResultInfo) : Prop :=
  r.nmatches < SIZE_MOD ∧ r.nmatched_pkts < SIZE_MOD ∧ r.npkts < SIZE_MOD ∧ r.nbytes < SIZE_MOD

/-- Component-wise `size_t` sum of two counter records. -/
def ResultInfo.add (a b : ResultInfo) : ResultInfo :=
  { nmatches := wadd a.nmatches b.nmatches
    nmatched_pkts := wadd a.nmatched_pkts b.nmatched_pkts
    npkts := wadd a.npkts b.npkts
    nbytes := wadd a.nbytes b.nbytes }

/-! ## `statistic.cpp` -/

/-- One iteration of the loop of `realtime` (lines 41-47): the accumulator
after `stat.x += cur.x - old.x` for the four counters. -/
def realtimeStep (stat : ResultInfo) (r : MatchResult) : ResultInfo :=
  { nmatches := wadd stat.nmatches (wsub r.cur.nmatches r.old.nmatches)
    nmatched_pkts := wadd stat.nmatched_pkts (wsub r.cur.nmatched_pkts r.old.nmatched_pkts)
    npkts := wadd stat.npkts (wsub r.cur.npkts r.old.npkts)
    nbytes := wadd stat.nbytes (wsub r.cur.nbytes r.old.nbytes) }

/-- The loop of `realtime` from accumulator `stat`: every record adds its
delta to the accumulator and then has `old = cur` (line 49). -/
def realtimeLoop (stat : ResultInfo) : List MatchResult → ResultInfo × List MatchResult
  | [] => (stat, [])
  | r :: rs =>
    let out := realtimeLoop (realtimeStep stat r) rs
    (out.1, { r with old := r.cur } :: out.2)

/-- `realtime(results)`: the summed deltas and the mutated result set. -/
def realtime (results : List MatchResult) : ResultInfo × List MatchResult :=
  realtimeLoop ResultInfo.zero results

/-- One iteration of the loop of `total` (lines 60-65). -/
def totalStep (stat : ResultInfo) (r : MatchResult) : ResultInfo :=
  { nmatches := wadd stat.nmatches r.cur.nmatches
    nmatched_pkts := wadd stat.nmatched_pkts r.cur.nmatched_pkts
    npkts := wadd stat.npkts r.cur.npkts
    nbytes := wadd stat.nbytes r.cur.nbytes }

/-- The loop of `total` from accumulator `stat`; the records are only read. -/
def totalLoop (stat : ResultInfo) : List MatchResult → ResultInfo × List MatchResult
  | [] => (stat, [])
  | r :: rs =>
    let out := totalLoop (totalStep stat r) rs
    (out.1, r :: out.2)

/-- `total(results)`: the summed `cur` counters and the result set as the
loop leaves it. -/
def total (results : List MatchResult) : ResultInfo × List MatchResult :=
  totalLoop ResultInfo.zero results

/-- A `std::map<std::string, size_t>` as an association list. -/
abbrev StatMap := List (String × Nat)

/-- The assignment `m[key] = value`: the entry of `key` is replaced when there
is one, and created otherwise. -/
def StatMap.assign (key : String) (value : Nat) : StatMap → StatMap
  | [] => [(key, value)]
  | (k, v) :: m => if k = key then (k, value) :: m else (k, v) :: StatMap.assign key value m

/-- Lookup `m.find(key)`. -/
def StatMap.find (key : String) : StatMap → Option Nat
  | [] => none
  | (k, v) :: m => if k = key then some v else StatMap.find key m

/-- `make_statistic(sec, stat)` (lines 71-83); `sec` is a `uint32_t`, which
converts to `size_t` unchanged. -/
def make_statistic (sec : Nat) (stat : ResultInfo) : StatMap :=
  let m : StatMap := []
  let m := m.assign "Sec" sec
  let m := m.assign "Matches" stat.nmatches
  let m := m.assign "MatchedPackets" stat.nmatched_pkts
  let m := m.assign "Packets" stat.npkts
  let m := m.assign "Bytes" stat.nbytes
  m

/-- `statistic(sec, results, func)` (lines 24-34). The reporter, `func` or the
default `realtimeReport`, is handed the mapping `m`; the model returns that
mapping together with the result set as the call leaves it. -/
def statistic (sec : Nat) (results : List MatchResult) : StatMap × List MatchResult :=
  let out := if sec ≠ 0 then realtime results else total results
  (make_statistic sec out.1, out.2)

/-! ## The run as seen by the statistics module -/

/-- Modelled from the spec: the worker loop of the benchmark driver is not
among the sources; between two samples worker `i` adds `deltas[i]` to its
private cumulative counters `cur` (counters only accrue) and touches nothing
else. -/
def accrue : List ResultInfo → List MatchResult → List MatchResult
  | d :: ds, r :: rs => { r with cur := r.cur.add d } :: accrue ds rs
  | _, rs => rs

/-- What happens to a result set during a run: the workers accrue counters,
or the statistics module is invoked once in Realtime mode. -/
inductive RunEvent where
  | accrue (deltas : List ResultInfo)
  | sample
deriving Repr

/-- Play a sequence of events on a result set: the `ResultInfo` values that the
successive `realtime` calls return, in order, and the final result set. -/
def runWindows : List RunEvent → List MatchResult → List ResultInfo × List MatchResult
  | [], rs => ([], rs)
  | RunEvent.accrue ds :: evs, rs => runWindows evs (accrue ds rs)
  | RunEvent.sample :: evs, rs =>
    let s := realtime rs
    let out := runWindows evs s.2
    (s.1 :: out.1, out.2)

/-- Component-wise `size_t` sum of a sequence of counter records. -/
def sumInfos (l : List ResultInfo) : ResultInfo :=
  l.foldl ResultInfo.add ResultInfo.zero

/-- Sum over the workers of one counter of `cur`, as an exact natural number. -/
def curSum (p : ResultInfo → Nat) (rs : List MatchResult) : Nat :=
  (rs.map (fun r => p r.cur)).sum

/-- Sum over the workers of one counter of `old`, as an exact natural number. -/
def oldSum (p : ResultInfo → Nat) (rs : List MatchResult) : Nat :=
  (rs.map (fun r => p r.old)).sum

/-- Sum over the workers of the exact integer difference `cur - old` of one
counter. -/
def deltaSum (p : ResultInfo → Nat) (rs : List MatchResult) : Int :=
  (rs.map (fun r => (p r.cur : Int) - (p r.old : Int))).sum

/-! ## Formatted input: `std::istringstream` and `std::istream_iterator<int>` -/

/-- `isspace` in the "C" locale: space and the five control characters
`\t \n \v \f \r` (codes 9 to 13). -/
def isspace (c : Char) : Bool := c.toNat = 32 || (9 ≤ c.toNat && c.toNat ≤ 13)

/-- `isdigit`: the decimal digits. -/
def isdigit (c : Char) : Bool := 48 ≤ c.toNat && c.toNat ≤ 57

/-- Value of a decimal digit. -/
def digitVal (c : Char) : Nat := c.toNat - 48

/-- Largest value of an `int` (32-bit). -/
def INT_MAX : Int := 2147483647

/-- Smallest value of an `int` (32-bit). -/
def INT_MIN : Int := -2147483648

/-- The digit accumulation of `num_get`: the digits read so far times ten,
plus the next digit. -/
def accumulate (ds : List Char) : Nat :=
  ds.foldl (fun acc c => 10 * acc + digitVal c) 0

/-- The formatted extraction `is >> value` for an `int` on the characters left
in the stream, in the default state of a `std::istringstream` (`skipws | dec`,
no exception mask): leading white space is skipped, an optional sign and the
longest run of decimal digits are consumed. The result is the value and the
characters left, or `none` when the extraction sets `failbit`: no digit to
read (which covers the exhausted stream), or a value that does not fit in an
`int`. Nothing is thrown, the exception mask of the stream being empty. -/
def extractInt (s : List Char) : Option (Int × List Char) :=
  let s := s.dropWhile isspace
  let signed : Bool × List Char :=
    match s with
    | [] => (false, [])
    | c :: t => if c = '-' then (true, t) else if c = '+' then (false, t) else (false, c :: t)
  let ds := signed.2.takeWhile isdigit
  let rest := signed.2.dropWhile isdigit
  if ds.isEmpty then none
  else
    let v : Int := if signed.1 then -(accumulate ds : Int) else (accumulate ds : Int)
    if INT_MIN ≤ v ∧ v ≤ INT_MAX then some (v, rest) else none

/-- A `std::istream_iterator<int>`: `none` is the end-of-stream iterator, and
`some (v, rest)` holds the value read last and the characters left. -/
abbrev IntIterator := Option (Int × List Char)

/-- Construction `std::istream_iterator<int>(is)`: the first value is read at
once. -/
def IntIterator.begin (buf : List Char) : IntIterator := extractInt buf

/-- The increment `++iter`: reads the next value; a failed read turns the
iterator into the end-of-stream iterator. -/
def IntIterator.next : IntIterator → IntIterator
  | none => none
  | some (_, rest) => extractInt rest

/-! ## `setup_affinity` (`regexbench.cpp`, lines 237-274) -/

/-- Number of values of an `unsigned` and of an `int` (32-bit). -/
def UINT_MOD : Nat := 4294967296

/-- An `int` result brought back into the range of `int`: two's-complement
wrap-around of a sum that overflows. -/
def wrapInt (v : Int) : Int := (v + 2147483648) % 4294967296 - 2147483648

/-- The conversion `static_cast<int>(x)` of an `unsigned`: the values from
`2^31` on become negative. -/
def toInt (x : Nat) : Int :=
  if x % UINT_MOD < 2147483648 then ((x % UINT_MOD : Nat) : Int)
  else ((x % UINT_MOD : Nat) : Int) - (UINT_MOD : Int)

/-- `static_cast<int>(ncpus - 1)` (line 252): the subtraction is done on the
`unsigned` core count, where `0 - 1` is `2^32 - 1`, and its result is
converted to `int`. -/
def maxCoreOf (ncpus : Nat) : Int := toInt ((ncpus % UINT_MOD + UINT_MOD - 1) % UINT_MOD)

/-- The conversion `static_cast<size_t>(core)` of an `int`: a value that is
not negative is kept, a negative one wraps to `core + 2^64`. -/
def toSizeT (core : Int) : Nat := if 0 ≤ core then core.toNat else (core + (SIZE_MOD : Int)).toNat

/-- `std::replace(arg.begin(), arg.end(), ',', ' ')`. -/
def replaceCommas (arg : List Char) : List Char :=
  arg.map (fun c => if c = ',' then ' ' else c)

/-- `std::generate` over the `n` slots still to fill, with the lambda of
lines 256-265: the state captured by reference is the iterator and `last`. -/
def generateCores (maxCore : Int) : Nat → IntIterator → Int → List Nat
  | 0, _, _ => []
  | n + 1, some (v, rest), _ =>
    let core := min (max v 0) maxCore
    toSizeT core :: generateCores maxCore n (IntIterator.next (some (v, rest))) core
  | n + 1, none, last =>
    let core := min (wrapInt (last + 1)) maxCore
    toSizeT core :: generateCores maxCore n none core

/-- The default assignment scheme of the `catch` block (lines 270-271):
`cores[i] = (i > maxCore) ? maxCore : i`. -/
def defaultAssignment (num : Nat) (maxCore : Int) : List Nat :=
  (List.range num).map (fun i => toSizeT (if (i : Int) > maxCore then maxCore else (i : Int)))

/-- The `try` block of `setup_affinity` (lines 254-265). Its outcome is the
filled vector, or the exception that left the block; no statement of the block
throws, a failed extraction only setting `failbit`. -/
def tryGenerate (num : Nat) (buf : List Char) (maxCore : Int) : Except Unit (List Nat) :=
  Except.ok (generateCores maxCore num (IntIterator.begin buf) 0)

/-- `setup_affinity(num, arg)`. The hardware core count
`std::thread::hardware_concurrency()`, an `unsigned`, is the parameter
`ncpus`. -/
def setup_affinity (num : Nat) (arg : String) (ncpus : Nat) : List Nat :=
  let num := num + 1
  let buf := replaceCommas arg.toList
  let maxCore : Int := maxCoreOf ncpus
  match tryGenerate num buf maxCore with
  | Except.ok cores => cores
  | Except.error _ => defaultAssignment num maxCore

/-! ### Vocabulary of the affinity claims -/

/-- The number a string of decimal digits denotes: every digit counts for its
value times the power of ten of its place. -/
def decimalValue : List Char → Nat
  | [] => 0
  | c :: cs => digitVal c * 10 ^ cs.length + decimalValue cs

/-- The cores that the lambda of `std::generate` computes, as `int`s, when the
iterator yields the values `vs` and then reaches the end of the stream. -/
def fillSlots (maxCore : Int) : Nat → List Int → Int → List Int
  | 0, _, _ => []
  | n + 1, v :: vs, _ => min (max v 0) maxCore :: fillSlots maxCore n vs (min (max v 0) maxCore)
  | n + 1, [], last =>
    min (wrapInt (last + 1)) maxCore :: fillSlots maxCore n [] (min (wrapInt (last + 1)) maxCore)

/-! ## `parse_options` (`regexbench.cpp`, lines 277-393) -/

/-- `enum class EngineType`. -/
inductive EngineType where
  | boost
  | std_regex
  | hyperscan
  | pcre2
  | pcre2_jit
  | re2
  | rematch
  | rematch2
deriving DecidableEq, Repr

/-- The feature macros of the absent `config.h` that `parse_options` tests. -/
structure BuildConfig where
  HAVE_HYPERSCAN : Bool
  HAVE_PCRE2 : Bool
  HAVE_RE2 : Bool
  HAVE_REMATCH : Bool
  REMATCH_WITHOUT_SESSION : Bool
deriving DecidableEq, Repr

/-- The command line as `boost::program_options` hands it over once
`po::store` and `po::notify` have returned: every option holds its value or
its default, `help` tells whether `--help` was given, and the two positional
file names are present or not. -/
structure CommandLine where
  help : Bool
  engine : String
  nrepeat : Int
  concat : Nat
  session : Nat
  output : String
  threads : Nat
  affinity : String
  reduce : Bool
  rule_file : Option String
  pcap_file : Option String
deriving DecidableEq, Repr

/-- `struct Arguments`; the field `repeat` is `nrepeat` here. -/
structure Arguments where
  output_file : String
  pcap_file : String
  rule_file : String
  engine : EngineType
  nrepeat : Int
  pcre2_concat : Nat
  rematch_session : Nat
  num_threads : Nat
  cores : List Nat
  reduce : Bool
deriving DecidableEq, Repr

/-- Exit status `EXIT_SUCCESS`. -/
def EXIT_SUCCESS : Nat := 0

/-- Exit status `EXIT_FAILURE`. -/
def EXIT_FAILURE : Nat := 1

/-- The chain of comparisons of lines 333-360 that turns the engine name into
an `EngineType`; `none` is the final `else` (unknown engine). -/
def selectEngine (cfg : BuildConfig) (engine : String) : Option EngineType :=
  if engine = "boost" then some EngineType.boost
  else if engine = "cpp" then some EngineType.std_regex
  else if cfg.HAVE_HYPERSCAN && engine = "hyperscan" then some EngineType.hyperscan
  else if cfg.HAVE_PCRE2 && engine = "pcre2" then some EngineType.pcre2
  else if cfg.HAVE_PCRE2 && engine = "pcre2jit" then some EngineType.pcre2_jit
  else if cfg.HAVE_RE2 && engine = "re2" then some EngineType.re2
  else if cfg.HAVE_REMATCH && engine = "rematch" then some EngineType.rematch
  else if cfg.HAVE_REMATCH && engine = "rematch2" then some EngineType.rematch2
  else none

/-- `parse_options` from line 328 on, on a machine with `ncpus` cores. The
result is the configuration returned, or the status handed to `std::exit`. -/
def parse_options (cfg : BuildConfig) (ncpus : Nat) (cl : CommandLine) : Except Nat Arguments :=
  if cl.help then Except.error EXIT_SUCCESS
  else
    match selectEngine cfg cl.engine with
    | none => Except.error EXIT_FAILURE
    | some engine =>
      if cl.nrepeat ≤ 0 then Except.error EXIT_FAILURE
      else
        let num_threads := if cl.threads < 1 then 1 else cl.threads
        let cores := setup_affinity num_threads cl.affinity ncpus
        let rematch_session :=
          if cfg.REMATCH_WITHOUT_SESSION
              && (cl.engine = "rematch" || cl.engine = "rematch2") && cl.session ≠ 0
          then 0 else cl.session
        match cl.rule_file, cl.pcap_file with
        | none, _ => Except.error EXIT_FAILURE
        | some _, none => Except.error EXIT_FAILURE
        | some rule_file, some pcap_file =>
          Except.ok
            { output_file := cl.output
              pcap_file := pcap_file
              rule_file := rule_file
              engine := engine
              nrepeat := cl.nrepeat
              pcre2_concat := cl.concat
              rematch_session := rematch_session
              num_threads := num_threads
              cores := cores
              reduce := cl.reduce }

/-- A build with every optional engine compiled in. -/
def fullBuild : BuildConfig := ⟨true, true, true, true, false⟩

/-- The command line `regexbench rules.re traffic.pcap` with every option at
its default. -/
def defaultCommandLine : CommandLine :=
  { help := false
    engine := "hyperscan"
    nrepeat := 1
    concat := 0
    session := 0
    output := "output.json"
    threads := 1
    affinity := "0"
    reduce := false
    rule_file := some "rules.re"
    pcap_file := some "traffic.pcap" }

/-- The configuration that `parse_options` returns for `defaultCommandLine` on
a four-core machine, and also when `-n 0` is added to it. -/
def defaultArguments : Arguments :=
  { output_file := "output.json"
    pcap_file := "traffic.pcap"
    rule_file := "rules.re"
    engine := EngineType.hyperscan
    nrepeat := 1
    pcre2_concat := 0
    rematch_session := 0
    num_threads := 1
    cores := [0, 1]
    reduce := false }

/-- The repeat clause of the validation claim read on every command line: a
repeat count `≤ 0` makes the process exit with a nonzero status. -/
def RepeatIsFatal (cfg : BuildConfig) (ncpus : Nat) (cl : CommandLine) : Prop :=
  cl.nrepeat ≤ 0 → ∃ code : Nat, code ≠ 0 ∧ parse_options cfg ncpus cl = Except.error code

/-! ## The report document (`main`, lines 159-214) -/

/-- A `boost::property_tree::ptree`: a node holds its data and the ordered
list of its keyed children. -/
inductive PTree where
  | node (data : String) (children : List (String × PTree))

/-- A default-constructed `ptree`. -/
def PTree.empty : PTree := PTree.node "" []

/-- The children of a node. -/
def PTree.children : PTree → List (String × PTree)
  | PTree.node _ cs => cs

/-- The keys of the children of a node, in order. -/
def PTree.keys (t : PTree) : List String := t.children.map Prod.fst

/-- `ptree::find`: the first child with the key `k`. -/
def findChild (k : String) : List (String × PTree) → Option PTree
  | [] => none
  | (k', c) :: cs => if k' = k then some c else findChild k cs

/-- One step of the path walk of `ptree::put`: `f` is applied to the first
child with the key `k`; when there is none, a child with that key is appended
and `f` applied to it. -/
def updateChild (k : String) (f : PTree → PTree) : List (String × PTree) → List (String × PTree)
  | [] => [(k, f PTree.empty)]
  | (k', c) :: cs => if k' = k then (k', f c) :: cs else (k', c) :: updateChild k f cs

/-- `ptree::put` along a path given by its segments: the node at the path is
created along with its missing parents, or found, and its data replaced. -/
def PTree.putPath : List String → String → PTree → PTree
  | [], v, PTree.node _ cs => PTree.node v cs
  | k :: ks, v, PTree.node d cs => PTree.node d (updateChild k (PTree.putPath ks v) cs)

/-- The segments of a path, which `'.'` separates. -/
def splitPath : List Char → List (List Char)
  | [] => [[]]
  | c :: cs =>
    if c = '.' then [] :: splitPath cs
    else
      match splitPath cs with
      | [] => [[c]]
      | seg :: segs => (c :: seg) :: segs

/-- The path that a string denotes: the empty string is the empty path, any
other string is cut at every `'.'`. -/
def pathSegments (path : String) : List String :=
  if path.toList = [] then [] else (splitPath path.toList).map String.mk

/-- `pt.put(path, value)`. -/
def PTree.put (path : String) (value : String) (pt : PTree) : PTree :=
  pt.putPath (pathSegments path) value

/-- The array `reportFields` (lines 159-162). -/
def reportFields : List String :=
  ["TotalMatches", "TotalMatchedPackets", "UserTime", "SystemTime", "TotalTime", "TotalBytes",
   "TotalPackets", "Mbps", "Mpps", "MaximumMemoryUsed(kB)"]

/-- The key of a worker's record group: `"thread"` and the core id in decimal,
as `ss << "thread" << *coreIter` writes it. -/
def threadKey (core : Nat) : String := "thread" ++ toString core

/-- `corePrefix`: `prefix + ss.str()` (lines 163 and 172-174). -/
def corePrefix (core : Nat) : String := "regexbench." ++ (threadKey core ++ ".")

/-- One iteration of the loop of lines 171-214 on the tree: the ten
`pt.put(corePrefix + field, value)` in the order of the source, which is the
order of `reportFields`. The value stored under a field is `value r field`:
the timings, throughput figures and peak memory are floating-point and
system quantities, left uninterpreted. -/
def writeWorker {R : Type} (value : R → String → String) (core : Nat) (r : R) (pt : PTree) :
    PTree :=
  reportFields.foldl (fun t field => t.put (corePrefix core ++ field) (value r field)) pt

/-- The loop of lines 171-214: `coreIter` walks the cores as the loop walks
the results. `none` stands for `coreIter` being read past the end of the
cores. -/
def reportLoop {R : Type} (value : R → String → String) :
    List Nat → List R → PTree → Option PTree
  | _, [], pt => some pt
  | [], _ :: _, _ => none
  | core :: cores, r :: rs, pt => reportLoop value cores rs (writeWorker value core r pt)

/-- The property tree `pt` that `main` builds (lines 168-214) from the
affinity plan `cores` and the results of the workers; `coreIter` starts one
past the controlling thread. -/
def buildReport {R : Type} (value : R → String → String) (cores : List Nat) (results : List R) :
    Option PTree :=
  reportLoop value cores.tail results PTree.empty

/-- The record groups of the report: the children of the node `regexbench`. -/
def recordGroups (pt : PTree) : List (String × PTree) :=
  match findChild "regexbench" pt.children with
  | some t => t.children
  | none => []

/-- The keys of the record groups of the report, in order. -/
def groupKeys (pt : PTree) : List String := (recordGroups pt).map Prod.fst

/-- The keys of a list of children after a `put` that goes through the key
`k`: unchanged when `k` is there, `k` appended otherwise. -/
def addKey (ks : List String) (k : String) : List String :=
  if k ∈ ks then ks else ks ++ [k]

/-- The ten `put`s of one worker as they act on the worker's own group node. -/
def writeFields {R : Type} (value : R → String → String) (r : R) (fields : List String)
    (g : PTree) : PTree :=
  fields.foldl (fun t field => t.putPath [field] (value r field)) g

/-- Every record group of the report holds exactly the ten fields of
`reportFields`, in that order. -/
def GroupsComplete (pt : PTree) : Prop := ∀ g ∈ recordGroups pt, g.2.keys = reportFields

/-- The record-group clause of the report claim read on every run: the tree
is built and holds as many record groups as there are workers. -/
def OneGroupPerWorker {R : Type} (value : R → String → String) (N C : Nat) (arg : String)
    (results : List R) : Prop :=
  ∃ pt, buildReport value (setup_affinity N arg C) results = some pt ∧
    (groupKeys pt).length = N

/-! ## Properties of the statistics module -/

theorem SIZE_MOD_eq : SIZE_MOD = 18446744073709551616 := by norm_num [SIZE_MOD]

theorem ResultInfo.ext_fields {a b : ResultInfo} (h1 : a.nmatches = b.nmatches)
    (h2 : a.nmatched_pkts = b.nmatched_pkts) (h3 : a.npkts = b.npkts)
    (h4 : a.nbytes = b.nbytes) : a = b := by
  cases a; cases b; simp_all

@[simp]
theorem curSum_nil (p : ResultInfo → Nat) : curSum p [] = 0 := rfl
@[simp]
theorem oldSum_nil (p : ResultInfo → Nat) : oldSum p [] = 0 := rfl
@[simp]
theorem deltaSum_nil (p : ResultInfo → Nat) : deltaSum p [] = 0 := rfl
@[simp]
theorem curSum_cons (p : ResultInfo → Nat) (r : MatchResult) (rs : List MatchResult) :
    curSum p (r :: rs) = p r.cur + curSum p rs := by simp [curSum]
@[simp]
theorem oldSum_cons (p : ResultInfo → Nat) (r : MatchResult) (rs : List MatchResult) :
    oldSum p (r :: rs) = p r.old + oldSum p rs := by simp [oldSum]
@[simp]
theorem deltaSum_cons (p : ResultInfo → Nat) (r : MatchResult) (rs : List MatchResult) :
    deltaSum p (r :: rs) = ((p r.cur : Int) - (p r.old : Int)) + deltaSum p rs := by
  simp [deltaSum]

theorem deltaSum_eq (p : ResultInfo → Nat) (rs : List MatchResult) :
    deltaSum p rs = (curSum p rs : Int) - (oldSum p rs : Int) := by
  induction rs with
  | nil => simp
  | cons r rs ih => simp [ih]; ring

/-- The result set after the loop of `realtime`: every `old` is its `cur`. -/
theorem realtimeLoop_snd (rs : List MatchResult) (stat : ResultInfo) :
    (realtimeLoop stat rs).2 = rs.map (fun r => { r with old := r.cur }) := by
  induction rs generalizing stat with
  | nil => rfl
  | cons r rs ih => simp [realtimeLoop, ih]

/-- The accumulator after the loop of `realtime`, counter by counter, modulo
the word size. -/
theorem realtimeLoop_fst (rs : List MatchResult) (stat : ResultInfo) :
    ((realtimeLoop stat rs).1.nmatches + oldSum (·.nmatches) rs) % SIZE_MOD
        = (stat.nmatches + curSum (·.nmatches) rs) % SIZE_MOD ∧
    ((realtimeLoop stat rs).1.nmatched_pkts + oldSum (·.nmatched_pkts) rs) % SIZE_MOD
        = (stat.nmatched_pkts + curSum (·.nmatched_pkts) rs) % SIZE_MOD ∧
    ((realtimeLoop stat rs).1.npkts + oldSum (·.npkts) rs) % SIZE_MOD
        = (stat.npkts + curSum (·.npkts) rs) % SIZE_MOD ∧
    ((realtimeLoop stat rs).1.nbytes + oldSum (·.nbytes) rs) % SIZE_MOD
        = (stat.nbytes + curSum (·.nbytes) rs) % SIZE_MOD := by
  induction rs generalizing stat with
  | nil => simp [realtimeLoop]
  | cons r rs ih =>
    have ih' := ih (realtimeStep stat r)
    simp only [realtimeLoop, oldSum_cons, curSum_cons]
    generalize realtimeLoop (realtimeStep stat r) rs = out at ih' ⊢
    obtain ⟨h1, h2, h3, h4⟩ := ih'
    simp only [realtimeStep, wadd, wsub, SIZE_MOD_eq] at h1 h2 h3 h4
    simp only [SIZE_MOD_eq]
    refine ⟨?_, ?_, ?_, ?_⟩ <;> omega

/-- The accumulator of `realtime` stays a `size_t`. -/
theorem realtimeLoop_lt (rs : List MatchResult) (stat : ResultInfo) (h : stat.WF) :
    (realtimeLoop stat rs).1.WF := by
  induction rs generalizing stat with
  | nil => simpa [realtimeLoop] using h
  | cons r rs ih =>
    simp only [realtimeLoop]
    apply ih
    simp only [ResultInfo.WF, realtimeStep, wadd, SIZE_MOD_eq]
    refine ⟨?_, ?_, ?_, ?_⟩ <;> omega

theorem totalLoop_snd (rs : List MatchResult) (stat : ResultInfo) :
    (totalLoop stat rs).2 = rs := by
  induction rs generalizing stat with
  | nil => rfl
  | cons r rs ih => simp [totalLoop, ih]

theorem totalLoop_fst (rs : List MatchResult) (stat : ResultInfo) :
    (totalLoop stat rs).1.nmatches % SIZE_MOD
        = (stat.nmatches + curSum (·.nmatches) rs) % SIZE_MOD ∧
    (totalLoop stat rs).1.nmatched_pkts % SIZE_MOD
        = (stat.nmatched_pkts + curSum (·.nmatched_pkts) rs) % SIZE_MOD ∧
    (totalLoop stat rs).1.npkts % SIZE_MOD
        = (stat.npkts + curSum (·.npkts) rs) % SIZE_MOD ∧
    (totalLoop stat rs).1.nbytes % SIZE_MOD
        = (stat.nbytes + curSum (·.nbytes) rs) % SIZE_MOD := by
  induction rs generalizing stat with
  | nil => simp [totalLoop]
  | cons r rs ih =>
    have ih' := ih (totalStep stat r)
    simp only [totalLoop, curSum_cons]
    generalize totalLoop (totalStep stat r) rs = out at ih' ⊢
    obtain ⟨h1, h2, h3, h4⟩ := ih'
    simp only [totalStep, wadd, SIZE_MOD_eq] at h1 h2 h3 h4
    simp only [SIZE_MOD_eq]
    refine ⟨?_, ?_, ?_, ?_⟩ <;> omega

theorem totalLoop_lt (rs : List MatchResult) (stat : ResultInfo) (h : stat.WF) :
    (totalLoop stat rs).1.WF := by
  induction rs generalizing stat with
  | nil => simpa [totalLoop] using h
  | cons r rs ih =>
    simp only [totalLoop]
    apply ih
    simp only [ResultInfo.WF, totalStep, wadd, SIZE_MOD_eq]
    refine ⟨?_, ?_, ?_, ?_⟩ <;> omega

theorem zero_WF : ResultInfo.zero.WF := by
  simp [ResultInfo.WF, ResultInfo.zero, SIZE_MOD_eq]

theorem make_statistic_eq (sec : Nat) (st : ResultInfo) :
    make_statistic sec st = [("Sec", sec), ("Matches", st.nmatches),
      ("MatchedPackets", st.nmatched_pkts), ("Packets", st.npkts), ("Bytes", st.nbytes)] := by
  simp [make_statistic, StatMap.assign]

/-- What `total` returns, counter by counter: the exact sum of the `cur`
counters reduced modulo the word size. -/
theorem total_fst (rs : List MatchResult) :
    (total rs).1 = ⟨curSum (·.nmatches) rs % SIZE_MOD, curSum (·.nmatched_pkts) rs % SIZE_MOD,
      curSum (·.npkts) rs % SIZE_MOD, curSum (·.nbytes) rs % SIZE_MOD⟩ := by
  obtain ⟨h1, h2, h3, h4⟩ := totalLoop_fst rs ResultInfo.zero
  obtain ⟨b1, b2, b3, b4⟩ := totalLoop_lt rs ResultInfo.zero zero_WF
  simp only [ResultInfo.zero, SIZE_MOD_eq] at h1 h2 h3 h4 b1 b2 b3 b4
  simp only [total, SIZE_MOD_eq]
  apply ResultInfo.ext_fields <;> simp only [ResultInfo.zero] <;> omega

/-- What `realtime` returns, counter by counter, against the exact sums. -/
theorem realtime_fst (rs : List MatchResult) :
    ((realtime rs).1.nmatches + oldSum (·.nmatches) rs) % SIZE_MOD
        = curSum (·.nmatches) rs % SIZE_MOD ∧
    ((realtime rs).1.nmatched_pkts + oldSum (·.nmatched_pkts) rs) % SIZE_MOD
        = curSum (·.nmatched_pkts) rs % SIZE_MOD ∧
    ((realtime rs).1.npkts + oldSum (·.npkts) rs) % SIZE_MOD
        = curSum (·.npkts) rs % SIZE_MOD ∧
    ((realtime rs).1.nbytes + oldSum (·.nbytes) rs) % SIZE_MOD
        = curSum (·.nbytes) rs % SIZE_MOD := by
  simpa [realtime, ResultInfo.zero] using realtimeLoop_fst rs ResultInfo.zero

theorem realtime_snd (rs : List MatchResult) :
    (realtime rs).2 = rs.map (fun r => { r with old := r.cur }) :=
  realtimeLoop_snd rs ResultInfo.zero

theorem oldSum_snapshot (p : ResultInfo → Nat) (rs : List MatchResult) :
    oldSum p (rs.map (fun r => { r with old := r.cur })) = curSum p rs := by
  induction rs with
  | nil => rfl
  | cons r rs ih => simp [ih]

theorem curSum_snapshot (p : ResultInfo → Nat) (rs : List MatchResult) :
    curSum p (rs.map (fun r => { r with old := r.cur })) = curSum p rs := by
  induction rs with
  | nil => rfl
  | cons r rs ih => simp [ih]

theorem oldSum_accrue (p : ResultInfo → Nat) (ds : List ResultInfo) (rs : List MatchResult) :
    oldSum p (accrue ds rs) = oldSum p rs := by
  induction ds generalizing rs with
  | nil => simp [accrue]
  | cons d ds ih =>
    cases rs with
    | nil => simp [accrue]
    | cons r rs => simp [accrue, ih]

theorem oldSum_of_zero (p : ResultInfo → Nat) (hp : p ResultInfo.zero = 0)
    (rs : List MatchResult) (h : ∀ r ∈ rs, r.old = ResultInfo.zero) : oldSum p rs = 0 := by
  induction rs with
  | nil => rfl
  | cons r rs ih =>
    have hr : r.old = ResultInfo.zero := h r (List.mem_cons_self _ _)
    have ht : ∀ x ∈ rs, x.old = ResultInfo.zero := fun x hx => h x (List.mem_cons_of_mem _ hx)
    simp [hr, hp, ih ht]

theorem runWindows_append_sample (evs : List RunEvent) (rs : List MatchResult) :
    runWindows (evs ++ [RunEvent.sample]) rs
      = ((runWindows evs rs).1 ++ [(realtime (runWindows evs rs).2).1],
         (realtime (runWindows evs rs).2).2) := by
  induction evs generalizing rs with
  | nil => simp [runWindows]
  | cons e evs ih =>
    cases e with
    | accrue ds => simp [runWindows, ih]
    | sample => simp [runWindows, ih]

/-- The running sum of the windows reported so far is the sum of the `old`
snapshots, counter by counter. -/
theorem runWindows_invariant (evs : List RunEvent) (rs : List MatchResult) (acc : ResultInfo)
    (h : acc = ⟨oldSum (·.nmatches) rs % SIZE_MOD, oldSum (·.nmatched_pkts) rs % SIZE_MOD,
      oldSum (·.npkts) rs % SIZE_MOD, oldSum (·.nbytes) rs % SIZE_MOD⟩) :
    (runWindows evs rs).1.foldl ResultInfo.add acc
      = ⟨oldSum (·.nmatches) (runWindows evs rs).2 % SIZE_MOD,
         oldSum (·.nmatched_pkts) (runWindows evs rs).2 % SIZE_MOD,
         oldSum (·.npkts) (runWindows evs rs).2 % SIZE_MOD,
         oldSum (·.nbytes) (runWindows evs rs).2 % SIZE_MOD⟩ := by
  induction evs generalizing rs acc with
  | nil => simpa [runWindows] using h
  | cons e evs ih =>
    cases e with
    | accrue ds =>
      simp only [runWindows]
      apply ih
      simpa [oldSum_accrue] using h
    | sample =>
      simp only [runWindows, List.foldl_cons]
      apply ih
      obtain ⟨h1, h2, h3, h4⟩ := realtime_fst rs
      subst h
      simp only [realtime_snd, oldSum_snapshot]
      simp only [SIZE_MOD_eq] at h1 h2 h3 h4
      apply ResultInfo.ext_fields <;> simp only [ResultInfo.add, wadd, SIZE_MOD_eq] <;> omega

/-- C5: in Realtime mode (`sec ≠ 0`), for every result set, each counter that
`realtime` returns is the sum over the workers of `cur - old`, taken in `size_t`
(the exact integer sum reduced modulo `2^64`); afterwards every record has `old`
equal to its `cur`, `cur` and the timings being untouched; and the reporter is
handed `Sec = sec` with the four sums under `Matches`, `MatchedPackets`,
`Packets` and `Bytes`. -/
theorem realtime_mode_reports_deltas (sec : Nat) (hsec : sec ≠ 0) (rs : List MatchResult) :
    ((realtime rs).1.nmatches : Int) = deltaSum (·.nmatches) rs % (SIZE_MOD : Int) ∧
    ((realtime rs).1.nmatched_pkts : Int) = deltaSum (·.nmatched_pkts) rs % (SIZE_MOD : Int) ∧
    ((realtime rs).1.npkts : Int) = deltaSum (·.npkts) rs % (SIZE_MOD : Int) ∧
    ((realtime rs).1.nbytes : Int) = deltaSum (·.nbytes) rs % (SIZE_MOD : Int) ∧
    (realtime rs).2 = rs.map (fun r => { r with old := r.cur }) ∧
    (∀ r ∈ (realtime rs).2, r.old = r.cur) ∧
    (realtime rs).2.map (·.cur) = rs.map (·.cur) ∧
    statistic sec rs =
      ([("Sec", sec), ("Matches", (realtime rs).1.nmatches),
        ("MatchedPackets", (realtime rs).1.nmatched_pkts),
        ("Packets", (realtime rs).1.npkts), ("Bytes", (realtime rs).1.nbytes)],
       (realtime rs).2) := by
  obtain ⟨h1, h2, h3, h4⟩ := realtime_fst rs
  obtain ⟨b1, b2, b3, b4⟩ := realtimeLoop_lt rs ResultInfo.zero zero_WF
  change (realtime rs).1.nmatches < _ at b1
  change (realtime rs).1.nmatched_pkts < _ at b2
  change (realtime rs).1.npkts < _ at b3
  change (realtime rs).1.nbytes < _ at b4
  simp only [SIZE_MOD_eq] at h1 h2 h3 h4 b1 b2 b3 b4
  refine ⟨?_, ?_, ?_, ?_, realtime_snd rs, ?_, ?_, ?_⟩
  · rw [deltaSum_eq, SIZE_MOD_eq]; push_cast; omega
  · rw [deltaSum_eq, SIZE_MOD_eq]; push_cast; omega
  · rw [deltaSum_eq, SIZE_MOD_eq]; push_cast; omega
  · rw [deltaSum_eq, SIZE_MOD_eq]; push_cast; omega
  · intro r hr
    rw [realtime_snd, List.mem_map] at hr
    obtain ⟨x, _, rfl⟩ := hr
    rfl
  · rw [realtime_snd, List.map_map]
    rfl
  · simp [statistic, hsec, make_statistic_eq]

/-- Witness for C5: one worker with `old` at half of `cur`, sampled with a
one-second interval. -/
theorem realtime_mode_reports_deltas_witness :
    (1 : Nat) ≠ 0 ∧
    statistic 1 [⟨⟨20, 20, 20, 2000⟩, ⟨10, 10, 10, 1000⟩, ⟨0, 0⟩, ⟨0, 0⟩⟩] =
      ([("Sec", 1), ("Matches", 10), ("MatchedPackets", 10), ("Packets", 10), ("Bytes", 1000)],
       [⟨⟨20, 20, 20, 2000⟩, ⟨20, 20, 20, 2000⟩, ⟨0, 0⟩, ⟨0, 0⟩⟩]) :=
  ⟨by decide,
   (realtime_mode_reports_deltas 1 (by decide)
      [⟨⟨20, 20, 20, 2000⟩, ⟨10, 10, 10, 1000⟩, ⟨0, 0⟩, ⟨0, 0⟩⟩]).2.2.2.2.2.2.2.trans (by decide)⟩

/-- C6: in Total mode (`sec = 0`), for every result set, the reporter is handed
exactly the five keys `Sec`, `Matches`, `MatchedPackets`, `Packets`, `Bytes`,
with `Sec = 0` and every other value the sum of the corresponding `cur` counter
over all workers, taken in `size_t`; the result set is left as it was. For the
single worker with `cur = {20, 20, 20, 2000}` the mapping is
`{Sec:0, Matches:20, MatchedPackets:20, Packets:20, Bytes:2000}`. -/
theorem total_mode_reports_cur_sums :
    (∀ rs : List MatchResult, statistic 0 rs =
      ([("Sec", 0), ("Matches", curSum (·.nmatches) rs % SIZE_MOD),
        ("MatchedPackets", curSum (·.nmatched_pkts) rs % SIZE_MOD),
        ("Packets", curSum (·.npkts) rs % SIZE_MOD),
        ("Bytes", curSum (·.nbytes) rs % SIZE_MOD)], rs)) ∧
    (∀ (old : ResultInfo) (udiff sdiff : Timeval),
      (statistic 0 [⟨⟨20, 20, 20, 2000⟩, old, udiff, sdiff⟩]).1 =
        [("Sec", 0), ("Matches", 20), ("MatchedPackets", 20), ("Packets", 20),
         ("Bytes", 2000)]) := by
  have key : ∀ rs : List MatchResult, statistic 0 rs =
      ([("Sec", 0), ("Matches", curSum (·.nmatches) rs % SIZE_MOD),
        ("MatchedPackets", curSum (·.nmatched_pkts) rs % SIZE_MOD),
        ("Packets", curSum (·.npkts) rs % SIZE_MOD),
        ("Bytes", curSum (·.nbytes) rs % SIZE_MOD)], rs) := by
    intro rs
    have h2 : (total rs).2 = rs := totalLoop_snd rs ResultInfo.zero
    simp [statistic, make_statistic_eq, total_fst, h2]
  refine ⟨key, ?_⟩
  intro old udiff sdiff
  rw [key]
  simp [curSum, SIZE_MOD_eq]

/-- C7: for every result set, a `realtime` call made right after another one,
no counter having moved in between, returns the all-zero `ResultInfo`, and
leaves the result set as the first call left it. -/
theorem realtime_second_call_is_zero (rs : List MatchResult) :
    (realtime (realtime rs).2).1 = ResultInfo.zero ∧
    (realtime (realtime rs).2).2 = (realtime rs).2 := by
  constructor
  · rw [realtime_snd rs]
    generalize hs : rs.map (fun r => ({ r with old := r.cur } : MatchResult)) = s
    obtain ⟨h1, h2, h3, h4⟩ := realtime_fst s
    obtain ⟨b1, b2, b3, b4⟩ := realtimeLoop_lt s ResultInfo.zero zero_WF
    change (realtime s).1.nmatches < _ at b1
    change (realtime s).1.nmatched_pkts < _ at b2
    change (realtime s).1.npkts < _ at b3
    change (realtime s).1.nbytes < _ at b4
    simp only [← hs, oldSum_snapshot, curSum_snapshot] at h1 h2 h3 h4
    simp only [← hs] at b1 b2 b3 b4
    simp only [SIZE_MOD_eq] at h1 h2 h3 h4 b1 b2 b3 b4
    apply ResultInfo.ext_fields <;> simp only [ResultInfo.zero, ← hs] <;> omega
  · simp only [realtime_snd, List.map_map]
    rfl

/-- C8: for every result set, `total` leaves every record (`cur`, `old` and
the timings) as it was, so does `statistic` in Total mode, and any number of
successive Total-mode invocations hands the reporter the same mapping. -/
theorem total_mode_is_idempotent (rs : List MatchResult) :
    (total rs).2 = rs ∧ (statistic 0 rs).2 = rs ∧
    ∀ n : Nat, (statistic 0 ((fun s => (statistic 0 s).2)^[n] rs)).1 = (statistic 0 rs).1 := by
  have h2 : ∀ s : List MatchResult, (total s).2 = s := fun s => totalLoop_snd s ResultInfo.zero
  have h3 : ∀ s : List MatchResult, (statistic 0 s).2 = s := by
    intro s; simp [statistic, h2]
  refine ⟨h2 rs, h3 rs, ?_⟩
  intro n
  have hfix : (fun s : List MatchResult => (statistic 0 s).2) = id := funext h3
  rw [hfix, Function.iterate_id]
  rfl

/-- C1: conservation law. Take a result set whose `old` snapshots are all
zero and any run on it, that is any sequence of counter accruals and Realtime
calls followed by a last Realtime call. The component-wise `size_t` sum of the
`ResultInfo` values returned by the Realtime calls is the `ResultInfo` that
one `total` call returns on the final result set. -/
theorem realtime_windows_sum_to_total (rs : List MatchResult)
    (h0 : ∀ r ∈ rs, r.old = ResultInfo.zero) (evs : List RunEvent) :
    sumInfos (runWindows (evs ++ [RunEvent.sample]) rs).1
      = (total (runWindows (evs ++ [RunEvent.sample]) rs).2).1 := by
  have hinv := runWindows_invariant (evs ++ [RunEvent.sample]) rs ResultInfo.zero (by
    rw [oldSum_of_zero (·.nmatches) rfl rs h0, oldSum_of_zero (·.nmatched_pkts) rfl rs h0,
      oldSum_of_zero (·.npkts) rfl rs h0, oldSum_of_zero (·.nbytes) rfl rs h0]
    rfl)
  rw [sumInfos, hinv, total_fst, runWindows_append_sample]
  simp only [realtime_snd, oldSum_snapshot, curSum_snapshot]

/-- Witness for C1: one worker replaying ten 100-byte packets twice, sampled
after each repeat; the two windows add up to `{20, 20, 20, 2000}`. -/
theorem realtime_windows_sum_to_total_witness :
    (∀ r ∈ [(⟨ResultInfo.zero, ResultInfo.zero, ⟨0, 0⟩, ⟨0, 0⟩⟩ : MatchResult)],
        r.old = ResultInfo.zero) ∧
    sumInfos (runWindows ([RunEvent.accrue [⟨10, 10, 10, 1000⟩], RunEvent.sample,
        RunEvent.accrue [⟨10, 10, 10, 1000⟩]] ++ [RunEvent.sample])
        [⟨ResultInfo.zero, ResultInfo.zero, ⟨0, 0⟩, ⟨0, 0⟩⟩]).1
      = (total (runWindows ([RunEvent.accrue [⟨10, 10, 10, 1000⟩], RunEvent.sample,
        RunEvent.accrue [⟨10, 10, 10, 1000⟩]] ++ [RunEvent.sample])
        [⟨ResultInfo.zero, ResultInfo.zero, ⟨0, 0⟩, ⟨0, 0⟩⟩]).2).1 :=
  ⟨by decide, realtime_windows_sum_to_total _ (by decide) _⟩

/-! ## Properties of the affinity planner -/

theorem generateCores_length (maxCore : Int) (n : Nat) (iter : IntIterator) (last : Int) :
    (generateCores maxCore n iter last).length = n := by
  induction n generalizing iter last with
  | zero => cases iter <;> rfl
  | succ n ih =>
    cases iter with
    | none => simp [generateCores, ih]
    | some p => obtain ⟨v, rest⟩ := p; simp [generateCores, ih]

theorem isdigit_ne_minus {c : Char} (h : isdigit c = true) : c ≠ '-' := by
  rintro rfl; revert h; decide

theorem extractInt_nil : extractInt [] = none := by decide


/-! ### The stream of a comma-separated token list -/

theorem fillSlots_head_nil (maxCore : Int) (n : Nat) (last : Int) :
    (fillSlots maxCore (n + 1) [] last)[0]? = some (min (wrapInt (last + 1)) maxCore) := by
  simp [fillSlots]

/-- C3 (what the code does): on the non-numeric core list `"abc,def"` with two
workers and four cores the plan is `[1, 2, 3]`, and not the default assignment
`[0, 1, 2]` of the `catch` block, which no input reaches: the `try` block
always completes. -/
theorem setup_affinity_non_numeric_no_fallback :
    setup_affinity 2 "abc,def" 4 = [1, 2, 3] ∧
    defaultAssignment (2 + 1) (4 - 1) = [0, 1, 2] ∧
    ∀ (num : Nat) (buf : List Char) (maxCore : Int),
      ∃ cores, tryGenerate num buf maxCore = Except.ok cores :=
  ⟨by decide, by decide, fun _ _ _ => ⟨_, rfl⟩⟩

/-- C10 as stated fails: `regexbench --help -r 0` has a repeat count `≤ 0`, and
the process exits with status `0`, the `--help` test coming first. -/
theorem parse_options_help_precedes_repeat :
    parse_options fullBuild 4 { defaultCommandLine with help := true, nrepeat := 0 }
      = Except.error 0 ∧
    ¬ RepeatIsFatal fullBuild 4 { defaultCommandLine with help := true, nrepeat := 0 } := by
  refine ⟨rfl, ?_⟩
  intro h
  obtain ⟨code, hne, hcode⟩ := h (by decide)
  have h0 : parse_options fullBuild 4 { defaultCommandLine with help := true, nrepeat := 0 }
      = Except.error 0 := rfl
  rw [h0] at hcode
  injection hcode with hc
  exact hne hc.symm

/-- C10 (amended): for every command line that does not ask for `--help`, a
repeat count `≤ 0` is fatal (exit status `EXIT_FAILURE`, no configuration
returned); a thread count of `0` behaves as a thread count of `1`; and
every configuration that `parse_options` returns has `repeat ≥ 1`,
`num_threads ≥ 1` and an affinity plan of `num_threads + 1` entries. -/
theorem parse_options_validation (cfg : BuildConfig) (ncpus : Nat) (cl : CommandLine) :
    (cl.help = false → RepeatIsFatal cfg ncpus cl) ∧
    parse_options cfg ncpus { cl with threads := 0 }
      = parse_options cfg ncpus { cl with threads := 1 } ∧
    ∀ a : Arguments, parse_options cfg ncpus cl = Except.ok a →
      1 ≤ a.nrepeat ∧ 1 ≤ a.num_threads ∧ a.cores.length = a.num_threads + 1 ∧
      (cl.threads = 0 → a.num_threads = 1) := by
  refine ⟨?_, ?_, ?_⟩
  · intro hh hr
    refine ⟨EXIT_FAILURE, by decide, ?_⟩
    unfold parse_options
    simp only [hh, Bool.false_eq_true, if_false]
    cases selectEngine cfg cl.engine with
    | none => rfl
    | some e => simp [hr]
  · rfl
  · intro a ha
    unfold parse_options at ha
    split at ha
    · cases ha
    · revert ha
      cases selectEngine cfg cl.engine with
      | none => intro ha; cases ha
      | some e =>
        simp only
        split
        · intro ha; cases ha
        · rename_i hr
          cases hrf : cl.rule_file with
          | none => intro ha; cases ha
          | some rf =>
            cases hpf : cl.pcap_file with
            | none => intro ha; cases ha
            | some pf =>
              intro ha
              simp only [Except.ok.injEq] at ha
              subst ha
              refine ⟨by simp only; omega, ?_, ?_, ?_⟩
              · simp only; split <;> omega
              · exact generateCores_length _ _ _ _
              · intro h0; simp [h0]

/-- Witness for C10 (amended): `-r 0` exits with a nonzero status, and `-n 0`
yields the configuration `defaultArguments`, with one worker and a plan of two
entries. -/
theorem parse_options_validation_witness :
    RepeatIsFatal fullBuild 4 { defaultCommandLine with nrepeat := 0 } ∧
    parse_options fullBuild 4 { defaultCommandLine with threads := 0 }
      = Except.ok defaultArguments ∧
    1 ≤ defaultArguments.nrepeat ∧ 1 ≤ defaultArguments.num_threads ∧
    defaultArguments.cores.length = defaultArguments.num_threads + 1 ∧
    ((0 : Nat) = 0 → defaultArguments.num_threads = 1) :=
  ⟨(parse_options_validation fullBuild 4 { defaultCommandLine with nrepeat := 0 }).1 rfl,
   rfl,
   (parse_options_validation fullBuild 4 { defaultCommandLine with threads := 0 }).2.2
     defaultArguments rfl⟩

/-! ## Properties of the report document -/

/-! ### Decimal rendering of a core id -/

theorem digitChar_spec : ∀ m : Nat, m < 10 →
    isdigit (Nat.digitChar m) = true ∧ digitVal (Nat.digitChar m) = m := by
  decide

theorem toDigitsCore_spec (fuel n : Nat) (ds : List Char) (hfuel : n < fuel)
    (hds : ∀ c ∈ ds, isdigit c = true) :
    (∀ c ∈ Nat.toDigitsCore 10 fuel n ds, isdigit c = true) ∧
    decimalValue (Nat.toDigitsCore 10 fuel n ds) = n * 10 ^ ds.length + decimalValue ds := by
  induction fuel generalizing n ds with
  | zero => omega
  | succ fuel ih =>
    obtain ⟨hd1, hd2⟩ := digitChar_spec (n % 10) (Nat.mod_lt _ (by decide))
    have hds' : ∀ c ∈ Nat.digitChar (n % 10) :: ds, isdigit c = true := by
      intro c hc
      rcases List.mem_cons.1 hc with rfl | hc
      · exact hd1
      · exact hds c hc
    unfold Nat.toDigitsCore
    by_cases h0 : n / 10 = 0
    · simp only [h0, if_true]
      refine ⟨hds', ?_⟩
      simp only [decimalValue, hd2]
      have : n % 10 = n := by omega
      rw [this]
    · simp only [h0, if_false]
      obtain ⟨i1, i2⟩ := ih (n / 10) (Nat.digitChar (n % 10) :: ds) (by omega) hds'
      refine ⟨i1, ?_⟩
      rw [i2]
      simp only [decimalValue, hd2, List.length_cons, pow_succ]
      have hn : n = 10 * (n / 10) + n % 10 := (Nat.div_add_mod n 10).symm
      generalize n / 10 = q at hn ⊢
      generalize n % 10 = r at hn ⊢
      subst hn
      ring

theorem toDigits_spec (n : Nat) :
    (∀ c ∈ Nat.toDigits 10 n, isdigit c = true) ∧ decimalValue (Nat.toDigits 10 n) = n := by
  have := toDigitsCore_spec (n + 1) n [] (by omega) (by simp)
  simpa [Nat.toDigits, decimalValue] using this

theorem toString_nat_data (n : Nat) : (toString n).data = Nat.toDigits 10 n := rfl

theorem threadKey_injective : Function.Injective threadKey := by
  intro a b h
  have h' : (threadKey a).data = (threadKey b).data := by rw [h]
  simp only [threadKey, String.data_append, toString_nat_data, List.append_cancel_left_eq] at h'
  have ha := (toDigits_spec a).2
  have hb := (toDigits_spec b).2
  rw [h'] at ha
  omega


/-! ### Paths -/

theorem splitPath_noDot (l : List Char) (h : ∀ c ∈ l, c ≠ '.') : splitPath l = [l] := by
  induction l with
  | nil => rfl
  | cons c cs ih =>
    have hc : c ≠ '.' := h c (List.mem_cons_self _ _)
    have := ih (fun x hx => h x (List.mem_cons_of_mem _ hx))
    simp [splitPath, hc, this]

theorem splitPath_append_dot (a b : List Char) (h : ∀ c ∈ a, c ≠ '.') :
    splitPath (a ++ '.' :: b) = a :: splitPath b := by
  induction a with
  | nil => simp [splitPath]
  | cons c cs ih =>
    have hc : c ≠ '.' := h c (List.mem_cons_self _ _)
    have := ih (fun x hx => h x (List.mem_cons_of_mem _ hx))
    simp [splitPath, hc, this]

theorem isdigit_ne_dot {c : Char} (h : isdigit c = true) : c ≠ '.' := by
  rintro rfl; revert h; decide

theorem threadKey_noDot (core : Nat) : ∀ c ∈ (threadKey core).data, c ≠ '.' := by
  intro c hc
  simp only [threadKey, String.data_append, toString_nat_data, List.mem_append] at hc
  rcases hc with hc | hc
  · revert c; decide
  · exact isdigit_ne_dot ((toDigits_spec core).1 c hc)

theorem reportFields_noDot : ∀ f ∈ reportFields, ∀ c ∈ f.data, c ≠ '.' := by decide

/-- The path of a field of a worker has three segments. -/
theorem pathSegments_field (core : Nat) (f : String) (hf : f ∈ reportFields) :
    pathSegments (corePrefix core ++ f) = ["regexbench", threadKey core, f] := by
  have h1 : (corePrefix core ++ f).toList
      = "regexbench".data ++ '.' :: ((threadKey core).data ++ '.' :: f.data) := by
    simp [corePrefix, String.toList, String.data_append]
  have hne : (corePrefix core ++ f).toList ≠ [] := by
    rw [h1]; simp
  have h2 : ∀ c ∈ "regexbench".data, c ≠ '.' := by decide
  simp only [pathSegments, hne, if_false, h1]
  rw [splitPath_append_dot _ _ h2, splitPath_append_dot _ _ (threadKey_noDot core),
    splitPath_noDot _ (reportFields_noDot f hf)]
  rfl


/-! ### One level of the tree -/

theorem updateChild_keys (k : String) (f : PTree → PTree) (cs : List (String × PTree)) :
    (updateChild k f cs).map Prod.fst = addKey (cs.map Prod.fst) k := by
  induction cs with
  | nil => simp [updateChild, addKey]
  | cons c cs ih =>
    obtain ⟨k', t⟩ := c
    by_cases h : k' = k
    · subst h
      simp [updateChild, addKey]
    · have h' : ¬ k = k' := fun e => h e.symm
      simp only [updateChild, h, if_false, List.map_cons, ih, addKey, List.mem_cons, h',
        false_or]
      split_ifs <;> simp

theorem updateChild_comp (k : String) (f g : PTree → PTree) (cs : List (String × PTree)) :
    updateChild k f (updateChild k g cs) = updateChild k (fun t => f (g t)) cs := by
  induction cs with
  | nil => simp [updateChild]
  | cons c cs ih =>
    obtain ⟨k', t⟩ := c
    by_cases h : k' = k
    · subst h
      simp [updateChild]
    · simp [updateChild, h, ih]

theorem findChild_updateChild (k : String) (f : PTree → PTree) (cs : List (String × PTree)) :
    findChild k (updateChild k f cs) = some (f ((findChild k cs).getD PTree.empty)) := by
  induction cs with
  | nil => simp [updateChild, findChild]
  | cons c cs ih =>
    obtain ⟨k', t⟩ := c
    by_cases h : k' = k
    · subst h
      simp [updateChild, findChild]
    · simp [updateChild, findChild, h, ih]

/-- Where the children of an updated node come from. -/
theorem mem_updateChild (k : String) (f : PTree → PTree) (cs : List (String × PTree))
    (g : String × PTree) (hg : g ∈ updateChild k f cs) :
    g ∈ cs ∨ g.2 = f PTree.empty ∨ ∃ c, (k, c) ∈ cs ∧ g.2 = f c := by
  induction cs with
  | nil =>
    simp only [updateChild, List.mem_singleton] at hg
    subst hg
    exact Or.inr (Or.inl rfl)
  | cons c cs ih =>
    obtain ⟨k', t⟩ := c
    by_cases h : k' = k
    · subst h
      simp only [updateChild, if_true, List.mem_cons] at hg
      rcases hg with rfl | hg
      · exact Or.inr (Or.inr ⟨t, List.mem_cons_self _ _, rfl⟩)
      · exact Or.inl (List.mem_cons_of_mem _ hg)
    · simp only [updateChild, h, if_false, List.mem_cons] at hg
      rcases hg with rfl | hg
      · exact Or.inl (List.mem_cons_self _ _)
      · rcases ih hg with h1 | h1 | ⟨c, hc, h1⟩
        · exact Or.inl (List.mem_cons_of_mem _ h1)
        · exact Or.inr (Or.inl h1)
        · exact Or.inr (Or.inr ⟨c, List.mem_cons_of_mem _ hc, h1⟩)

theorem putPath_single_keys (f v : String) (t : PTree) :
    (t.putPath [f] v).keys = addKey t.keys f := by
  cases t with
  | node d cs => simp [PTree.putPath, PTree.keys, PTree.children, updateChild_keys]

theorem writeFields_keys {R : Type} (value : R → String → String) (r : R) (fields : List String)
    (g : PTree) : (writeFields value r fields g).keys = fields.foldl addKey g.keys := by
  induction fields generalizing g with
  | nil => rfl
  | cons f fs ih =>
    simp only [writeFields, List.foldl_cons] at ih ⊢
    rw [ih, putPath_single_keys]

theorem recordGroups_putPath (key f v : String) (pt : PTree) :
    recordGroups (pt.putPath ["regexbench", key, f] v)
      = updateChild key (fun g => g.putPath [f] v) (recordGroups pt) := by
  cases pt with
  | node d cs =>
    simp only [PTree.putPath, recordGroups, PTree.children, findChild_updateChild]
    cases findChild "regexbench" cs with
    | none => simp [PTree.empty, PTree.putPath, PTree.children]
    | some t =>
      cases t with
      | node d' cs' => simp [PTree.putPath, PTree.children]


/-! ### One worker, then the loop -/

theorem recordGroups_fold_put {R : Type} (value : R → String → String) (core : Nat) (r : R)
    (fs : List String) (f0 : String) (hf0 : f0 ∈ reportFields)
    (hfs : ∀ f ∈ fs, f ∈ reportFields) (pt : PTree) :
    recordGroups ((f0 :: fs).foldl
        (fun t field => t.put (corePrefix core ++ field) (value r field)) pt)
      = updateChild (threadKey core) (writeFields value r (f0 :: fs)) (recordGroups pt) := by
  induction fs generalizing f0 pt with
  | nil =>
    simp only [List.foldl_cons, List.foldl_nil, PTree.put, pathSegments_field core f0 hf0,
      recordGroups_putPath]
    rfl
  | cons f1 fs ih =>
    have h1 : f1 ∈ reportFields := hfs f1 (List.mem_cons_self _ _)
    have hrest : ∀ f ∈ fs, f ∈ reportFields := fun f hf => hfs f (List.mem_cons_of_mem _ hf)
    rw [List.foldl_cons, ih f1 h1 hrest]
    simp only [PTree.put, pathSegments_field core f0 hf0, recordGroups_putPath,
      updateChild_comp]
    rfl

theorem recordGroups_writeWorker {R : Type} (value : R → String → String) (core : Nat) (r : R)
    (pt : PTree) :
    recordGroups (writeWorker value core r pt)
      = updateChild (threadKey core) (writeFields value r reportFields) (recordGroups pt) :=
  recordGroups_fold_put value core r _ _ (by decide) (by decide) pt

theorem groupKeys_writeWorker {R : Type} (value : R → String → String) (core : Nat) (r : R)
    (pt : PTree) :
    groupKeys (writeWorker value core r pt) = addKey (groupKeys pt) (threadKey core) := by
  simp only [groupKeys, recordGroups_writeWorker, updateChild_keys]

theorem fields_fresh : reportFields.foldl addKey [] = reportFields := by decide

theorem fields_again : reportFields.foldl addKey reportFields = reportFields := by decide

theorem groupsComplete_writeWorker {R : Type} (value : R → String → String) (core : Nat) (r : R)
    (pt : PTree) (h : GroupsComplete pt) : GroupsComplete (writeWorker value core r pt) := by
  intro g hg
  rw [recordGroups_writeWorker] at hg
  rcases mem_updateChild _ _ _ _ hg with h1 | h1 | ⟨c, hc, h1⟩
  · exact h g h1
  · rw [h1, writeFields_keys]
    exact fields_fresh
  · rw [h1, writeFields_keys, show c.keys = reportFields from h (_, c) hc]
    exact fields_again

theorem reportLoop_spec {R : Type} (value : R → String → String) (cores : List Nat)
    (results : List R) (pt : PTree) (hlen : results.length ≤ cores.length)
    (hpt : GroupsComplete pt) :
    ∃ pt', reportLoop value cores results pt = some pt' ∧
      groupKeys pt' = ((cores.take results.length).map threadKey).foldl addKey (groupKeys pt) ∧
      GroupsComplete pt' := by
  induction results generalizing cores pt with
  | nil => exact ⟨pt, by cases cores <;> rfl, by simp, hpt⟩
  | cons r rs ih =>
    cases cores with
    | nil => simp at hlen
    | cons core cores =>
      simp only [List.length_cons, Nat.add_le_add_iff_right] at hlen
      obtain ⟨pt', h1, h2, h3⟩ := ih cores (writeWorker value core r pt) hlen
        (groupsComplete_writeWorker value core r pt hpt)
      refine ⟨pt', by simpa [reportLoop] using h1, ?_, h3⟩
      rw [h2, groupKeys_writeWorker]
      simp

theorem foldl_addKey_nodup (l ks : List String) (h : ks.Nodup) : (l.foldl addKey ks).Nodup := by
  induction l generalizing ks with
  | nil => exact h
  | cons k l ih =>
    apply ih
    unfold addKey
    split_ifs with hk
    · exact h
    · exact List.Nodup.append h (List.nodup_singleton k) (by simpa using hk)

theorem mem_foldl_addKey (l ks : List String) (k : String) :
    k ∈ l.foldl addKey ks ↔ k ∈ ks ∨ k ∈ l := by
  induction l generalizing ks with
  | nil => simp
  | cons x l ih =>
    rw [List.foldl_cons, ih]
    unfold addKey
    split_ifs with hx
    · constructor
      · rintro (h | h)
        · exact Or.inl h
        · exact Or.inr (List.mem_cons_of_mem _ h)
      · rintro (h | h)
        · exact Or.inl h
        · rcases List.mem_cons.1 h with rfl | h
          · exact Or.inl hx
          · exact Or.inr h
    · simp only [List.mem_append, List.mem_singleton, List.mem_cons]
      tauto

/-- The number of keys of the groups written for the cores `l`. -/
theorem length_foldl_addKey (l : List Nat) :
    ((l.map threadKey).foldl addKey []).length = l.dedup.length := by
  have hnd := foldl_addKey_nodup (l.map threadKey) [] List.nodup_nil
  have hset : ((l.map threadKey).foldl addKey []).toFinset = l.toFinset.image threadKey := by
    ext k
    simp [mem_foldl_addKey]
  rw [← List.toFinset_card_of_nodup hnd, hset,
    Finset.card_image_of_injective _ threadKey_injective, List.card_toFinset]


/-! ### The report claim -/

/-- C9 as stated fails: four workers on a four-core machine with the default
core list `"0"` get the plan `[0, 1, 2, 3, 3]`; the last two workers share the
key `thread3`, and the tree holds three record groups, not four. -/
theorem report_workers_sharing_a_core :
    setup_affinity 4 "0" 4 = [0, 1, 2, 3, 3] ∧
    (buildReport (fun (_ : Unit) (_ : String) => "") (setup_affinity 4 "0" 4)
        [(), (), (), ()]).map groupKeys = some ["thread1", "thread2", "thread3"] ∧
    ¬ OneGroupPerWorker (fun (_ : Unit) (_ : String) => "") 4 4 "0" [(), (), (), ()] := by
  have hk : (buildReport (fun (_ : Unit) (_ : String) => "") (setup_affinity 4 "0" 4)
        [(), (), (), ()]).map groupKeys = some ["thread1", "thread2", "thread3"] := by decide
  refine ⟨by decide, hk, ?_⟩
  rintro ⟨pt, hpt, hlen⟩
  rw [hpt] at hk
  simp only [Option.map_some', Option.some.injEq] at hk
  rw [hk] at hlen
  exact absurd hlen (by decide)

/-- C9 (amended): for every run with `N` workers and every affinity plan that
`setup_affinity` produces, the property tree built in `main` holds one record
group per distinct core id among `plan[1..N]` (the controller's slot 0 is
skipped), keyed `regexbench.thread<core_id>`; that makes `N` groups when these
core ids are pairwise distinct; and each group holds exactly the ten fields
`TotalMatches`, `TotalMatchedPackets`, `UserTime`, `SystemTime`, `TotalTime`,
`TotalBytes`, `TotalPackets`, `Mbps`, `Mpps`, `MaximumMemoryUsed(kB)`. -/
theorem report_record_groups {R : Type} (value : R → String → String) (N C : Nat) (arg : String)
    (results : List R) (hlen : results.length = N) :
    ∃ pt, buildReport value (setup_affinity N arg C) results = some pt ∧
      (groupKeys pt).Nodup ∧
      (∀ k, k ∈ groupKeys pt ↔ ∃ c ∈ (setup_affinity N arg C).tail, k = threadKey c) ∧
      GroupsComplete pt ∧
      (groupKeys pt).length = (setup_affinity N arg C).tail.dedup.length ∧
      ((setup_affinity N arg C).tail.Nodup → (groupKeys pt).length = N) := by
  have hplan : (setup_affinity N arg C).length = N + 1 := generateCores_length _ _ _ _
  have htail : (setup_affinity N arg C).tail.length = N := by simp [hplan]
  have hempty : GroupsComplete PTree.empty := by
    intro g hg
    simp [recordGroups, PTree.empty, PTree.children, findChild] at hg
  obtain ⟨pt, h1, h2, h3⟩ := reportLoop_spec value (setup_affinity N arg C).tail results
    PTree.empty (by omega) hempty
  have htake : (setup_affinity N arg C).tail.take results.length
      = (setup_affinity N arg C).tail := by
    have hl : results.length = (setup_affinity N arg C).tail.length := by omega
    rw [hl, List.take_length]
  have hkeys0 : groupKeys PTree.empty = [] := rfl
  rw [htake, hkeys0] at h2
  refine ⟨pt, h1, ?_, ?_, h3, ?_, ?_⟩
  · rw [h2]; exact foldl_addKey_nodup _ _ List.nodup_nil
  · intro k
    rw [h2, mem_foldl_addKey]
    simp only [List.not_mem_nil, false_or, List.mem_map]
    constructor
    · rintro ⟨c, hc, rfl⟩; exact ⟨c, hc, rfl⟩
    · rintro ⟨c, hc, rfl⟩; exact ⟨c, hc, rfl⟩
  · rw [h2, length_foldl_addKey]
  · intro hnd
    rw [h2, length_foldl_addKey, List.Nodup.dedup hnd, htail]

/-- Witness for C9 (amended): two workers on four cores with the core list
`"0"`, hence the plan `[0, 1, 2]` and the groups `thread1` and `thread2`. -/
theorem report_record_groups_witness :
    [(), ()].length = 2 ∧
    ∃ pt, buildReport (fun (_ : Unit) (f : String) => f) (setup_affinity 2 "0" 4) [(), ()]
        = some pt ∧
      (groupKeys pt).Nodup ∧
      (∀ k, k ∈ groupKeys pt ↔ ∃ c ∈ (setup_affinity 2 "0" 4).tail, k = threadKey c) ∧
      GroupsComplete pt ∧
      (groupKeys pt).length = (setup_affinity 2 "0" 4).tail.dedup.length ∧
      ((setup_affinity 2 "0" 4).tail.Nodup → (groupKeys pt).length = 2) :=
  ⟨rfl, report_record_groups (fun (_ : Unit) (f : String) => f) 2 4 "0" [(), ()] rfl⟩

end regexbench
